import Mathlib

/-!
Shallow embedding of the Inventory Management System backend
(`src/frontend/server.js`: Express + Mongoose + JWT) and of the
client-side quantity adjustment (`src/auth.js`).

Conventions of the embedding:
* JS numbers are modelled as `ℚ` (prices, quantities on the server);
  the client-side quantity (`parseInt`) is modelled as `ℤ`.
* Mongo ObjectIds are modelled as `Nat`, generated from a counter in
  `Db`; a route parameter is an `IdParam`, with a `malformed`
  constructor for strings that fail `mongoose.Types.ObjectId.isValid`.
* Mongoose semantics follow version 6+: `lowercase`/`trim` setters run
  on document saves and on query filters; `undefined` keys are stripped
  from `findOneAndUpdate` payloads, and `runValidators` applies the
  field validators only to the paths present in the update.
* The JWT library is modelled by a `Jwt` structure: signing records the
  secret and the expiry (`now + 7 days`), verification checks the
  secret and the expiry, exactly the contract the server relies on.
-/

namespace Inventory

/-- The `category` enum of `itemSchema` in `server.js`
(`enum: ['Electronics', 'Clothing', 'Food', 'Furniture', 'Tools', 'Other']`). -/
inductive Category where
  | Electronics
  | Clothing
  | Food
  | Furniture
  | Tools
  | Other
deriving DecidableEq

/-- Casting a request string to the `category` enum. -/
def parseCategory (s : String) : Option Category :=
  if s = "Electronics" then some .Electronics
  else if s = "Clothing" then some .Clothing
  else if s = "Food" then some .Food
  else if s = "Furniture" then some .Furniture
  else if s = "Tools" then some .Tools
  else if s = "Other" then some .Other
  else none

/-- A stored inventory item (the `Item` mongoose model). -/
structure Item where
  itemId : Nat
  itemName : String
  quantity : ℚ
  price : ℚ
  description : Option String
  category : Category
  userId : Nat
  createdAt : Nat
  updatedAt : Nat
deriving DecidableEq

/-- A stored user (the `User` mongoose model); `email` is stored after
the `lowercase`/`trim` setters, `passwordHash` after the bcrypt pre-save hook. -/
structure User where
  userId : Nat
  username : String
  email : String
  passwordHash : String
  createdAt : Nat
deriving DecidableEq

/-- The document store reached through mongoose, plus the id counters
standing in for ObjectId generation. -/
structure Db where
  users : List User
  items : List Item
  nextUserId : Nat
  nextItemId : Nat
deriving DecidableEq

/-- A `:id` route parameter: either a valid ObjectId or a string that
fails `mongoose.Types.ObjectId.isValid`. -/
inductive IdParam where
  | malformed
  | valid (id : Nat)
deriving DecidableEq

/-! ### JS string primitives

Modelled on `List Char` so that every definition evaluates inside the
kernel; `String.trim`/`String.toLower`/`String.splitOn` of the Lean
core use position arithmetic that does not reduce definitionally. -/

/-- JS `String.prototype.trim` on a character list. -/
def jsTrimList (cs : List Char) : List Char :=
  (((cs.dropWhile Char.isWhitespace).reverse).dropWhile Char.isWhitespace).reverse

/-- JS `String.prototype.trim` (the mongoose `trim: true` setter). -/
def jsTrim (s : String) : String := ⟨jsTrimList s.data⟩

/-- JS `String.prototype.toLowerCase` (the mongoose `lowercase: true`
setter), ASCII case folding. -/
def jsToLower (s : String) : String := ⟨s.data.map Char.toLower⟩

/-- JS `String.prototype.split(sep)` for a one-character separator. -/
def splitChar (sep : Char) : List Char → List (List Char)
  | [] => [[]]
  | c :: rest =>
    let r := splitChar sep rest
    if c = sep then [] :: r
    else
      match r with
      | [] => [[c]]
      | w :: ws => (c :: w) :: ws

/-! ### Item field validators (`itemSchema` in `server.js`) -/

/-- Validator messages for `itemName` (required, trimmed, minlength 2);
the argument is the already-trimmed value. -/
def nameFieldErrors (n : String) : List String :=
  if n = "" then ["Item name is required"]
  else if n.length < 2 then ["Item name must be at least 2 characters"]
  else []

/-- Validator messages for `quantity` (`min: 0`). -/
def quantityFieldErrors (q : ℚ) : List String :=
  if q < 0 then ["Quantity cannot be negative"] else []

/-- Validator messages for `price` (`min: 0`). -/
def priceFieldErrors (p : ℚ) : List String :=
  if p < 0 then ["Price cannot be negative"] else []

/-- Validator messages for `description` (`maxlength: 500`); the
argument is the already-trimmed value. -/
def descriptionFieldErrors (d : String) : List String :=
  if 500 < d.length then ["Description cannot exceed 500 characters"] else []

/-- Validator messages for `category` (required, enum). -/
def categoryFieldErrors (c : String) : List String :=
  if c = "" then ["Category is required"]
  else if (parseCategory c).isNone then
    [c ++ " is not a valid enum value for path category"]
  else []

/-- The request body of `POST /api/items` and `PUT /api/items/:id`;
`none` models a field absent from the JSON body (`undefined`). -/
structure ItemBody where
  itemName : Option String
  quantity : Option ℚ
  price : Option ℚ
  description : Option String
  category : Option String
deriving DecidableEq

/-- Document validation run by `newItem.save()`: every schema path is
validated and the messages of all failing paths are collected, in
schema order. -/
def createValidationErrors (n : String) (q p : ℚ) (descr : Option String)
    (c : String) : List String :=
  nameFieldErrors (jsTrim n) ++ quantityFieldErrors q ++ priceFieldErrors p ++
    (match descr with
     | some d => descriptionFieldErrors (jsTrim d)
     | none => []) ++
    categoryFieldErrors c

/-- Update validation run by `findOneAndUpdate(..., { runValidators: true })`:
`undefined` fields are stripped from the update, and only the paths
present in the update are validated. -/
def updateFieldErrors (body : ItemBody) : List String :=
  (match body.itemName with
   | some n => nameFieldErrors (jsTrim n)
   | none => []) ++
  (match body.quantity with
   | some q => quantityFieldErrors q
   | none => []) ++
  (match body.price with
   | some p => priceFieldErrors p
   | none => []) ++
  (match body.description with
   | some d => descriptionFieldErrors (jsTrim d)
   | none => []) ++
  (match body.category with
   | some c => categoryFieldErrors c
   | none => [])

/-- The `{ _id: id, userId: uid }` filter used by every single-item query. -/
def itemMatch (id uid : Nat) (x : Item) : Bool :=
  decide (x.itemId = id ∧ x.userId = uid)

/-! ### CRUD handlers (`server.js`) -/

/-- Response of `POST /api/items`: 400 with the `required` list, 400
with validation messages, or 201 with the created item. -/
inductive CreateResponse where
  | missingFields
  | validationFailed (msgs : List String)
  | created (it : Item)
deriving DecidableEq

/-- `POST /api/items`: rejects falsy `itemName`/`category` and
`undefined` `quantity`/`price` with the missing-fields 400, then saves
(running the schema validators), appending the new item with
`userId := uid` and fresh timestamps. -/
def postItem (now uid : Nat) (body : ItemBody) (db : Db) : CreateResponse × Db :=
  match body.itemName, body.quantity, body.price, body.category with
  | some n, some q, some p, some c =>
    if n = "" ∨ c = "" then (.missingFields, db)
    else
      match parseCategory c, createValidationErrors n q p body.description c with
      | some cat, [] =>
        let it : Item :=
          { itemId := db.nextItemId
            itemName := jsTrim n
            quantity := q
            price := p
            description := body.description.map jsTrim
            category := cat
            userId := uid
            createdAt := now
            updatedAt := now }
        (.created it, { db with items := db.items ++ [it], nextItemId := db.nextItemId + 1 })
      | _, errs => (.validationFailed errs, db)
  | _, _, _, _ => (.missingFields, db)

/-- Response of `GET /api/items/:id`. -/
inductive GetResponse where
  | invalidId
  | notFound
  | found (it : Item)
deriving DecidableEq

/-- `GET /api/items/:id`: 400 on a malformed id, then
`Item.findOne({ _id: id, userId: req.user.userId })`; 404 when no
document matches, 200 with the item otherwise. -/
def getItem (uid : Nat) (idp : IdParam) (db : Db) : GetResponse :=
  match idp with
  | .malformed => .invalidId
  | .valid id =>
    match db.items.find? (itemMatch id uid) with
    | none => .notFound
    | some it => .found it

/-- Replace the first element satisfying `p` (the single document
matched by `findOneAndUpdate`). -/
def replaceFirst (p : Item → Bool) (y : Item) : List Item → List Item
  | [] => []
  | x :: xs => if p x then y :: xs else x :: replaceFirst p y xs

/-- Remove the first element satisfying `p` (the single document
matched by `findOneAndDelete`). -/
def removeFirst (p : Item → Bool) : List Item → List Item
  | [] => []
  | x :: xs => if p x then xs else x :: removeFirst p xs

/-- The update document of `PUT /api/items/:id` applied to a matched
item: present fields overwrite (with setters), absent fields are left
unchanged, and `updatedAt` is set to `Date.now()`. -/
def applyUpdate (now : Nat) (body : ItemBody) (it : Item) : Item :=
  { it with
    itemName := (body.itemName.map jsTrim).getD it.itemName
    quantity := body.quantity.getD it.quantity
    price := body.price.getD it.price
    description :=
      match body.description with
      | some d => some (jsTrim d)
      | none => it.description
    category := (body.category.bind parseCategory).getD it.category
    updatedAt := now }

/-- Response of `PUT /api/items/:id`. -/
inductive UpdateResponse where
  | invalidId
  | validationFailed (msgs : List String)
  | notFound
  | updated (it : Item)
deriving DecidableEq

/-- `PUT /api/items/:id`: 400 on a malformed id; update validators run
before the query touches the store (so a validation failure is reported
even for an absent id); then `findOneAndUpdate` scoped by owner: 404
when no document matches, else 200 with the post-update document. -/
def putItem (now uid : Nat) (idp : IdParam) (body : ItemBody) (db : Db) :
    UpdateResponse × Db :=
  match idp with
  | .malformed => (.invalidId, db)
  | .valid id =>
    match updateFieldErrors body with
    | [] =>
      match db.items.find? (itemMatch id uid) with
      | none => (.notFound, db)
      | some it =>
        let it2 := applyUpdate now body it
        (.updated it2, { db with items := replaceFirst (itemMatch id uid) it2 db.items })
    | errs => (.validationFailed errs, db)

/-- Response of `DELETE /api/items/:id`. -/
inductive DeleteResponse where
  | invalidId
  | notFound
  | deleted (it : Item)
deriving DecidableEq

/-- `DELETE /api/items/:id`: 400 on a malformed id, then
`findOneAndDelete({ _id: id, userId: req.user.userId })`; 404 when no
document matches, else 200 with the deleted document's prior value. -/
def deleteItem (uid : Nat) (idp : IdParam) (db : Db) : DeleteResponse × Db :=
  match idp with
  | .malformed => (.invalidId, db)
  | .valid id =>
    match db.items.find? (itemMatch id uid) with
    | none => (.notFound, db)
    | some it => (.deleted it, { db with items := removeFirst (itemMatch id uid) db.items })

/-! ### Statistics (`GET /api/stats`) -/

/-- One entry of the `categoryBreakdown` object. -/
structure CatStats where
  count : Nat
  quantity : ℚ
  value : ℚ
deriving DecidableEq

/-- The `Item.find({ userId: req.user.userId })` query backing
`GET /api/stats`. -/
def userItems (db : Db) (uid : Nat) : List Item :=
  db.items.filter (fun it => decide (it.userId = uid))

/-- One step of the `items.forEach` loop building `categoryBreakdown`:
initialise the key on first sight, then increment `count`, `quantity`
and `value`. -/
def bump (it : Item) : List (Category × CatStats) → List (Category × CatStats)
  | [] => [(it.category, ⟨1, it.quantity, it.price * it.quantity⟩)]
  | (c, s) :: rest =>
    if c = it.category then
      (c, ⟨s.count + 1, s.quantity + it.quantity, s.value + it.price * it.quantity⟩) :: rest
    else (c, s) :: bump it rest

/-- The `categoryBreakdown` object, as an insertion-ordered association list. -/
def categoryBreakdown (items : List Item) : List (Category × CatStats) :=
  items.foldl (fun acc it => bump it acc) []

/-- The body of the `GET /api/stats` response. -/
structure Stats where
  totalItems : Nat
  totalQuantity : ℚ
  totalValue : ℚ
  categoryBreakdown : List (Category × CatStats)
deriving DecidableEq

/-- `GET /api/stats`: all aggregates are recomputed per request from
the caller's items, with the `reduce` left folds of the source. -/
def getStats (uid : Nat) (db : Db) : Stats :=
  let items := userItems db uid
  { totalItems := items.length
    totalQuantity := items.foldl (fun sum it => sum + it.quantity) 0
    totalValue := items.foldl (fun sum it => sum + it.price * it.quantity) 0
    categoryBreakdown := categoryBreakdown items }

/-! ### Session tokens (`jsonwebtoken` as used by `server.js`) -/

/-- The payload the server signs: `{ userId, username }`. -/
structure TokenPayload where
  userId : Nat
  username : String
deriving DecidableEq

/-- `expiresIn: '7d'`, in seconds. -/
def sevenDays : Nat := 7 * 24 * 60 * 60

/-- A signed token: the payload, the secret it was signed with, and its
expiry instant. -/
structure Jwt where
  payload : TokenPayload
  secret : String
  expiresAt : Nat
deriving DecidableEq

/-- `jwt.sign(payload, secret, { expiresIn: '7d' })`. -/
def jwtSign (secret : String) (now : Nat) (p : TokenPayload) : Jwt :=
  ⟨p, secret, now + sevenDays⟩

/-- `jwt.verify(token, secret)`: succeeds exactly when the signature
matches the secret and the token has not expired. -/
def jwtVerify (secret : String) (now : Nat) (t : Jwt) : Option TokenPayload :=
  if t.secret = secret ∧ now ≤ t.expiresAt then some t.payload else none

/-! ### Access-control middleware (`authenticateToken` in `server.js`) -/

/-- `authHeader && authHeader.split(' ')[1]`, with JS falsiness of the
missing header, the missing second word, and the empty string. -/
def extractToken (authHeader : Option String) : Option String :=
  match authHeader with
  | none => none
  | some h =>
    match (splitChar ' ' h.data)[1]? with
    | none => none
    | some t => if t = [] then none else some ⟨t⟩

/-- Outcome of the middleware: 401, 403, or proceed to the handler with
`req.user` set to the decoded payload. -/
inductive MiddlewareResult where
  | unauthenticated
  | forbidden
  | proceed (user : TokenPayload)
deriving DecidableEq

/-- The `authenticateToken` middleware, parameterised by the token
verifier of the environment (a JWT decode against the server secret). -/
def authenticateToken (verify : String → Option TokenPayload)
    (authHeader : Option String) : MiddlewareResult :=
  match extractToken authHeader with
  | none => .unauthenticated
  | some t =>
    match verify t with
    | none => .forbidden
    | some p => .proceed p

/-- Outcome of a protected route: the handler body runs only after the
middleware calls `next()`. -/
inductive RouteOutcome (α : Type) where
  | unauthenticated
  | forbidden
  | handled (a : α)
deriving DecidableEq

/-- A protected endpoint: `app.get(path, authenticateToken, handler)`. -/
def protectedRoute {α : Type} (verify : String → Option TokenPayload)
    (authHeader : Option String) (handler : TokenPayload → α) : RouteOutcome α :=
  match authenticateToken verify authHeader with
  | .unauthenticated => .unauthenticated
  | .forbidden => .forbidden
  | .proceed p => .handled (handler p)

/-! ### The email regular expression of `userSchema`

`/^\w+([.-]?\w+)*@\w+([.-]?\w+)*(\.\w{2,3})+$/`, decided by trying
every split point of the concatenations. -/

/-- JS `\w` (no unicode flag): `[A-Za-z0-9_]`. -/
def isWordChar (c : Char) : Bool :=
  c.isAlphanum || c = '_'

/-- The `.` / `-` separators allowed between word runs. -/
def isSepChar (c : Char) : Bool :=
  c = '.' || c = '-'

/-- Tail of `\w+([.-]?\w+)*` scanning: every character is a word
character, or a separator immediately followed by a word character. -/
def wordSeqAux : List Char → Bool
  | [] => true
  | [c] => isWordChar c
  | a :: b :: rest =>
    (isWordChar a || (isSepChar a && isWordChar b)) && wordSeqAux (b :: rest)

/-- `\w+([.-]?\w+)*`: nonempty, starts with a word character, and has
no trailing or doubled separators. -/
def wordDotRunOk (cs : List Char) : Bool :=
  match cs with
  | [] => false
  | c :: _ => isWordChar c && wordSeqAux cs

/-- `(\.\w{2,3})+` with explicit backtracking, fuelled by the length of
the list. -/
def tailGroupsAux : Nat → List Char → Bool
  | 0, _ => false
  | fuel + 1, cs =>
    match cs with
    | '.' :: a :: b :: rest =>
      isWordChar a && isWordChar b &&
        (rest.isEmpty || tailGroupsAux fuel rest ||
          (match rest with
           | c :: rest2 =>
             isWordChar c && (rest2.isEmpty || tailGroupsAux fuel rest2)
           | [] => false))
    | _ => false

/-- `(\.\w{2,3})+`. -/
def matchTailGroups (cs : List Char) : Bool :=
  tailGroupsAux cs.length cs

/-- The domain part `\w+([.-]?\w+)*(\.\w{2,3})+`: some split of the
string matches the two concatenated pieces. -/
def domainOk (cs : List Char) : Bool :=
  (List.range (cs.length + 1)).any fun i =>
    wordDotRunOk (cs.take i) && matchTailGroups (cs.drop i)

/-- The whole anchored email pattern: a local part, an `@`, a domain. -/
def emailMatches (s : String) : Bool :=
  let cs := s.toList
  (List.range cs.length).any fun i =>
    cs[i]? = some '@' && wordDotRunOk (cs.take i) && domainOk (cs.drop (i + 1))

/-! ### Sign-up (`POST /api/auth/signup`) -/

/-- Document validation of `userSchema` on save: the inputs are the
values after the setters (`username` trimmed, `email` trimmed and
lowercased). -/
def userValidationErrors (username email password : String) : List String :=
  (if username = "" then ["Username is required"]
   else if username.length < 3 then ["Username must be at least 3 characters"]
   else []) ++
  (if email = "" then ["Email is required"]
   else if !emailMatches email then ["Please enter a valid email"]
   else []) ++
  (if password = "" then ["Password is required"]
   else if password.length < 6 then ["Password must be at least 6 characters"]
   else [])

/-- The request body of `POST /api/auth/signup`. -/
structure SignupBody where
  username : Option String
  email : Option String
  password : Option String
deriving DecidableEq

/-- Response of `POST /api/auth/signup`. -/
inductive SignupResponse where
  | missingFields
  | conflict
  | validationFailed (msgs : List String)
  | success (token : Jwt) (user : User)
deriving DecidableEq

/-- `POST /api/auth/signup`: the falsy-fields 400 first; then the
`findOne({ $or: [{ email }, { username }] })` conflict check (query
values pass through the schema setters); then `newUser.save()` with
document validation and the bcrypt hash; finally `jwt.sign` over
`{ userId, username }` of the new user. -/
def signup (hash : String → String) (secret : String) (now : Nat)
    (body : SignupBody) (db : Db) : SignupResponse × Db :=
  match body.username, body.email, body.password with
  | some u, some e, some pw =>
    if u = "" ∨ e = "" ∨ pw = "" then (.missingFields, db)
    else if db.users.any (fun x => x.email = jsToLower (jsTrim e) ∨ x.username = jsTrim u) then
      (.conflict, db)
    else
      match userValidationErrors (jsTrim u) (jsToLower (jsTrim e)) pw with
      | [] =>
        let newUser : User :=
          { userId := db.nextUserId
            username := jsTrim u
            email := jsToLower (jsTrim e)
            passwordHash := hash pw
            createdAt := now }
        let token := jwtSign secret now ⟨newUser.userId, newUser.username⟩
        (.success token newUser,
          { db with users := db.users ++ [newUser], nextUserId := db.nextUserId + 1 })
      | errs => (.validationFailed errs, db)
  | _, _, _ => (.missingFields, db)

/-! ### Operation sequences over the item store -/

/-- One authenticated item operation, as issued against the CRUD service. -/
inductive Op where
  | add (now : Nat) (body : ItemBody)
  | update (now : Nat) (idp : IdParam) (body : ItemBody)
  | del (idp : IdParam)

/-- The store state after one operation by user `uid`. -/
def applyOp (uid : Nat) (db : Db) : Op → Db
  | .add now body => (postItem now uid body db).2
  | .update now idp body => (putItem now uid idp body db).2
  | .del idp => (deleteItem uid idp db).2

/-- The store state after a sequence of operations by user `uid`. -/
def applyOps (uid : Nat) (ops : List Op) (db : Db) : Db :=
  ops.foldl (applyOp uid) db

/-! ### Client-side inventory (`src/auth.js`) -/

/-- An item of the client-side inventory list; `quantity` is the result
of `parseInt`, `price` of `parseFloat`. -/
structure ClientItem where
  id : String
  name : String
  quantity : ℤ
  price : ℚ
  category : String
deriving DecidableEq

/-- `adjustQuantity` of `src/auth.js`: map over the inventory, and on
the matching id set `quantity.max 0 (quantity + change)`. -/
def adjustQuantity (inv : List ClientItem) (id : String) (change : ℤ) :
    List ClientItem :=
  inv.map fun item =>
    if item.id = id then { item with quantity := max 0 (item.quantity + change) }
    else item

/-! ## Helper lemmas -/

/-- A `reduce`-style left fold of `g` over a list adds the mapped sum
to the accumulator. -/
theorem foldl_add_eq_sum (g : Item → ℚ) (l : List Item) (a : ℚ) :
    l.foldl (fun sum x => sum + g x) a = a + (l.map g).sum := by
  induction l generalizing a with
  | nil => simp
  | cons x xs ih => simp [ih, add_assoc]

/-! ## C2 -/

/-- C2: for every user and every sequence of add/update/delete
operations on that user's items, the `totalValue` returned by the
statistics operation exactly equals the sum of `price * quantity` over
the user's current items. -/
theorem stats_totalValue_exact (uid : Nat) (ops : List Op) (db0 : Db) :
    (getStats uid (applyOps uid ops db0)).totalValue
      = ((userItems (applyOps uid ops db0) uid).map
          (fun it => it.price * it.quantity)).sum := by
  simp [getStats, foldl_add_eq_sum]

/-! ## C3 -/

/-- C3: on a protected route, a request with no bearer token fails with
401 and a request with a token the verifier rejects fails with 403, in
both cases with the same outcome no matter which handler is installed
(so before any handler runs); a verified token runs the handler with
the resolved payload attached. -/
theorem authenticateToken_contract {α : Type}
    (verify : String → Option TokenPayload) (header : Option String)
    (f g : TokenPayload → α) :
    (extractToken header = none →
        protectedRoute verify header f = .unauthenticated
      ∧ protectedRoute verify header f = protectedRoute verify header g)
  ∧ (∀ t, extractToken header = some t → verify t = none →
        protectedRoute verify header f = .forbidden
      ∧ protectedRoute verify header f = protectedRoute verify header g)
  ∧ (∀ t p, extractToken header = some t → verify t = some p →
        protectedRoute verify header f = .handled (f p)
      ∧ protectedRoute verify header g = .handled (g p)) := by
  refine ⟨fun h => ?_, fun t ht hv => ?_, fun t p ht hv => ?_⟩
  · simp [protectedRoute, authenticateToken, h]
  · simp [protectedRoute, authenticateToken, ht, hv]
  · simp [protectedRoute, authenticateToken, ht, hv]

/-- The token verifier of a demonstration environment. -/
def demoVerify : String → Option TokenPayload :=
  fun t => if t = "tok7" then some ⟨7, "ann"⟩ else none

/-- Closed instance of `authenticateToken_contract`. -/
theorem authenticateToken_contract_witness :
    protectedRoute demoVerify (some "Bearer tok7") (fun p => p.userId) = .handled 7
  ∧ protectedRoute demoVerify none (fun p => p.userId) = .unauthenticated
  ∧ protectedRoute demoVerify (some "Bearer bad") (fun p => p.userId) = .forbidden := by
  have h1 := authenticateToken_contract demoVerify (some "Bearer tok7")
    (fun p => p.userId) (fun p => p.userId)
  have h2 := authenticateToken_contract demoVerify none
    (fun p => p.userId) (fun p => p.userId)
  have h3 := authenticateToken_contract demoVerify (some "Bearer bad")
    (fun p => p.userId) (fun p => p.userId)
  exact ⟨(h1.2.2 "tok7" ⟨7, "ann"⟩ (by decide) (by decide)).1,
    (h2.1 (by decide)).1, (h3.2.1 "bad" (by decide) (by decide)).1⟩

/-! ## C7 -/

/-- C7: after a quantity adjustment no stored quantity is negative (an
adjustment that would go below zero clamps at zero), and on the server
side a successfully created item has a non-negative quantity. -/
theorem adjustQuantity_clamps (inv : List ClientItem) (id : String) (change : ℤ)
    (hinv : ∀ it ∈ inv, 0 ≤ it.quantity) :
    (∀ it ∈ adjustQuantity inv id change, 0 ≤ it.quantity)
  ∧ (∀ it ∈ inv, it.id = id → it.quantity + change < 0 →
      { it with quantity := 0 } ∈ adjustQuantity inv id change)
  ∧ (∀ now uid n q p d c (db : Db) (it : Item) (db2 : Db),
      postItem now uid ⟨some n, some q, some p, d, some c⟩ db = (.created it, db2) →
      0 ≤ it.quantity) := by
  refine ⟨?_, ?_, ?_⟩
  · intro it hit
    rw [adjustQuantity, List.mem_map] at hit
    obtain ⟨x, hx, hmap⟩ := hit
    by_cases hid : x.id = id
    · rw [if_pos hid] at hmap
      rw [← hmap]
      exact le_max_left 0 _
    · rw [if_neg hid] at hmap
      rw [← hmap]
      exact hinv x hx
  · intro it hit hid hneg
    rw [adjustQuantity, List.mem_map]
    refine ⟨it, hit, ?_⟩
    rw [if_pos hid]
    have : max 0 (it.quantity + change) = 0 := max_eq_left (le_of_lt hneg)
    rw [this]
  · intro now uid n q p d c db it db2 h
    by_cases hg : n = "" ∨ c = ""
    · simp [postItem, hg] at h
    · cases hpc : parseCategory c with
      | none => simp [postItem, hg, hpc] at h
      | some cat =>
        cases herr : createValidationErrors n q p d c with
        | cons e es => simp [postItem, hg, hpc, herr] at h
        | nil =>
          have hq : quantityFieldErrors q = [] := by
            have := List.append_eq_nil.mp
              (List.append_eq_nil.mp
                (List.append_eq_nil.mp
                  (List.append_eq_nil.mp herr).1).1).1
            exact this.2
          have hq0 : ¬ q < 0 := by
            intro hlt
            rw [quantityFieldErrors, if_pos hlt] at hq
            exact absurd hq (by simp)
          simp [postItem, hg, hpc, herr, Prod.ext_iff] at h
          obtain ⟨h1, -⟩ := h
          rw [← h1]
          exact not_lt.mp hq0

/-- Closed instance of `adjustQuantity_clamps`. -/
theorem adjustQuantity_clamps_witness :
    (∀ it ∈ adjustQuantity [⟨"1", "x", 2, 5, "c"⟩] "1" (-5), 0 ≤ it.quantity)
  ∧ ({ id := "1", name := "x", quantity := 0, price := 5, category := "c" } : ClientItem)
      ∈ adjustQuantity [⟨"1", "x", 2, 5, "c"⟩] "1" (-5) := by
  have h := adjustQuantity_clamps [⟨"1", "x", 2, 5, "c"⟩] "1" (-5) (by decide)
  exact ⟨h.1, h.2.1 ⟨"1", "x", 2, 5, "c"⟩ (by simp) rfl (by decide)⟩

/-! ## C10 -/

/-- Sum of the `count` fields of a breakdown. -/
def sumCounts (l : List (Category × CatStats)) : Nat :=
  (l.map (fun e => e.2.count)).sum

/-- Sum of the `quantity` fields of a breakdown. -/
def sumQuantities (l : List (Category × CatStats)) : ℚ :=
  (l.map (fun e => e.2.quantity)).sum

/-- Sum of the `value` fields of a breakdown. -/
def sumValues (l : List (Category × CatStats)) : ℚ :=
  (l.map (fun e => e.2.value)).sum

/-- The keys of a breakdown. -/
def breakdownKeys (l : List (Category × CatStats)) : List Category :=
  l.map (fun e => e.1)

theorem bump_sumCounts (it : Item) (acc : List (Category × CatStats)) :
    sumCounts (bump it acc) = sumCounts acc + 1 := by
  induction acc with
  | nil => simp [bump, sumCounts]
  | cons e rest ih =>
    obtain ⟨c, s⟩ := e
    by_cases h : c = it.category
    · simp [bump, h, sumCounts]
      omega
    · simp [bump, h, sumCounts] at ih ⊢
      omega

theorem bump_sumQuantities (it : Item) (acc : List (Category × CatStats)) :
    sumQuantities (bump it acc) = sumQuantities acc + it.quantity := by
  induction acc with
  | nil => simp [bump, sumQuantities]
  | cons e rest ih =>
    obtain ⟨c, s⟩ := e
    by_cases h : c = it.category
    · simp [bump, h, sumQuantities]
      ring
    · simp [bump, h, sumQuantities] at ih ⊢
      rw [ih]
      ring

theorem bump_sumValues (it : Item) (acc : List (Category × CatStats)) :
    sumValues (bump it acc) = sumValues acc + it.price * it.quantity := by
  induction acc with
  | nil => simp [bump, sumValues]
  | cons e rest ih =>
    obtain ⟨c, s⟩ := e
    by_cases h : c = it.category
    · simp [bump, h, sumValues]
      ring
    · simp [bump, h, sumValues] at ih ⊢
      rw [ih]
      ring

theorem bump_keys (it : Item) (acc : List (Category × CatStats)) (c : Category) :
    c ∈ breakdownKeys (bump it acc) ↔ c = it.category ∨ c ∈ breakdownKeys acc := by
  induction acc with
  | nil => simp [bump, breakdownKeys]
  | cons e rest ih =>
    obtain ⟨c1, s⟩ := e
    by_cases h : c1 = it.category
    · subst h
      simp [bump, breakdownKeys]
    · simp [bump, h, breakdownKeys] at ih ⊢
      tauto

theorem mem_keys_iff (l : List (Category × CatStats)) (c : Category) :
    (∃ s, (c, s) ∈ l) ↔ c ∈ breakdownKeys l := by
  rw [breakdownKeys, List.mem_map]
  constructor
  · rintro ⟨s, hs⟩
    exact ⟨(c, s), hs, rfl⟩
  · rintro ⟨⟨c1, s⟩, hmem, rfl⟩
    exact ⟨s, hmem⟩

theorem breakdown_foldl_spec (items : List Item) (acc : List (Category × CatStats)) :
    sumCounts (items.foldl (fun a i => bump i a) acc) = sumCounts acc + items.length
  ∧ sumQuantities (items.foldl (fun a i => bump i a) acc)
      = sumQuantities acc + (items.map (fun it => it.quantity)).sum
  ∧ sumValues (items.foldl (fun a i => bump i a) acc)
      = sumValues acc + (items.map (fun it => it.price * it.quantity)).sum
  ∧ ∀ c, c ∈ breakdownKeys (items.foldl (fun a i => bump i a) acc)
      ↔ c ∈ breakdownKeys acc ∨ c ∈ items.map (fun it => it.category) := by
  induction items generalizing acc with
  | nil => simp
  | cons x xs ih =>
    obtain ⟨h1, h2, h3, h4⟩ := ih (bump x acc)
    refine ⟨?_, ?_, ?_, ?_⟩
    · rw [List.foldl_cons, h1, bump_sumCounts]
      simp
      omega
    · rw [List.foldl_cons, h2, bump_sumQuantities]
      simp
      ring
    · rw [List.foldl_cons, h3, bump_sumValues]
      simp
      ring
    · intro c
      rw [List.foldl_cons, h4 c, bump_keys]
      simp
      tauto

/-- C10: the `categoryBreakdown` keys are exactly the categories of the
caller's current items, and the per-category `count`/`quantity`/`value`
sums equal `totalItems`/`totalQuantity`/`totalValue`. -/
theorem stats_breakdown_consistent (uid : Nat) (db : Db) :
    (∀ c : Category,
        (∃ s, (c, s) ∈ (getStats uid db).categoryBreakdown)
      ↔ c ∈ (userItems db uid).map (fun it => it.category))
  ∧ sumCounts (getStats uid db).categoryBreakdown = (getStats uid db).totalItems
  ∧ sumQuantities (getStats uid db).categoryBreakdown = (getStats uid db).totalQuantity
  ∧ sumValues (getStats uid db).categoryBreakdown = (getStats uid db).totalValue := by
  obtain ⟨h1, h2, h3, h4⟩ := breakdown_foldl_spec (userItems db uid) []
  refine ⟨fun c => ?_, ?_, ?_, ?_⟩
  · rw [mem_keys_iff]
    simp [getStats, categoryBreakdown]
    rw [h4 c]
    simp [breakdownKeys]
  · simp [getStats, categoryBreakdown]
    rw [h1]
    simp [sumCounts]
  · simp [getStats, categoryBreakdown, foldl_add_eq_sum]
    rw [h2]
    simp [sumQuantities]
  · simp [getStats, categoryBreakdown, foldl_add_eq_sum]
    rw [h3]
    simp [sumValues]

/-! ## Ownership scoping (C1, C6) -/

/-- Server-generated ids are unique across the item store. -/
def uniqueIds (db : Db) : Prop :=
  (db.items.map (fun it => it.itemId)).Nodup

instance (db : Db) : Decidable (uniqueIds db) := by
  unfold uniqueIds
  infer_instance

theorem itemMatch_eq_true {id uid : Nat} {x : Item} :
    itemMatch id uid x = true ↔ x.itemId = id ∧ x.userId = uid := by
  simp [itemMatch]

theorem find?_itemMatch_eq_none {l : List Item} {id uid : Nat}
    (h : ∀ x ∈ l, ¬(x.itemId = id ∧ x.userId = uid)) :
    l.find? (itemMatch id uid) = none := by
  rw [List.find?_eq_none]
  intro x hx
  simp only [itemMatch, decide_eq_true_eq]
  exact h x hx

theorem find?_eq_some_of_unique {p : Item → Bool} {l : List Item} {it : Item}
    (hmem : it ∈ l) (hp : p it = true)
    (huniq : ∀ x ∈ l, p x = true → x = it) :
    l.find? p = some it := by
  induction l with
  | nil => cases hmem
  | cons a t ih =>
    by_cases ha : p a = true
    · have haeq : a = it := huniq a (List.mem_cons_self a t) ha
      subst haeq
      exact List.find?_cons_of_pos t ha
    · have hmem' : it ∈ t := by
        rcases List.mem_cons.mp hmem with h | h
        · exact absurd (h ▸ hp) ha
        · exact h
      rw [List.find?_cons_of_neg t ha]
      exact ih hmem' fun x hx hpx => huniq x (List.mem_cons_of_mem a hx) hpx

theorem mem_removeFirst {p : Item → Bool} {l : List Item} {x : Item}
    (hx : x ∈ removeFirst p l) : x ∈ l := by
  induction l with
  | nil => cases hx
  | cons a t ih =>
    rw [removeFirst] at hx
    by_cases ha : p a
    · rw [if_pos ha] at hx
      exact List.mem_cons_of_mem a hx
    · rw [if_neg ha] at hx
      rcases List.mem_cons.mp hx with h | h
      · exact h ▸ List.mem_cons_self a t
      · exact List.mem_cons_of_mem a (ih h)

theorem not_mem_removeFirst_of_unique {p : Item → Bool} {l : List Item} {it : Item}
    (hnd : l.Nodup) (hmem : it ∈ l) (hp : p it = true)
    (huniq : ∀ x ∈ l, p x = true → x = it) :
    it ∉ removeFirst p l := by
  induction l with
  | nil => cases hmem
  | cons a t ih =>
    obtain ⟨hna, hndt⟩ := List.nodup_cons.mp hnd
    rw [removeFirst]
    by_cases ha : p a
    · rw [if_pos ha]
      rw [huniq a (List.mem_cons_self a t) (by simpa using ha)] at hna
      exact hna
    · rw [if_neg ha]
      intro hx
      rcases List.mem_cons.mp hx with h | h
      · exact ha (h ▸ hp)
      · have hmem' : it ∈ t := by
          rcases List.mem_cons.mp hmem with h2 | h2
          · exact absurd (h2 ▸ hp) (by simpa using ha)
          · exact h2
        exact ih hndt hmem'
          (fun x hxx hpx => huniq x (List.mem_cons_of_mem a hxx) hpx) h

/-! ## C1 -/

/-- C1: for an item owned by user `a`, every get/update/delete request
by a different authenticated user `b` on that item's id yields
`NotFound`, never the item's data, and the whole response is identical
to the response for an id `idF` that does not exist at all. -/
theorem ownership_isolation (db : Db) (a b idF : Nat) (it : Item)
    (hmem : it ∈ db.items) (howner : it.userId = a) (hne : b ≠ a)
    (hnd : uniqueIds db) (hfresh : ∀ x ∈ db.items, x.itemId ≠ idF) :
    getItem b (.valid it.itemId) db = .notFound
  ∧ (∀ it2, getItem b (.valid it.itemId) db ≠ .found it2)
  ∧ getItem b (.valid idF) db = getItem b (.valid it.itemId) db
  ∧ (∀ now body, putItem now b (.valid it.itemId) body db
      = putItem now b (.valid idF) body db)
  ∧ (∀ now body, updateFieldErrors body = [] →
      putItem now b (.valid it.itemId) body db = (.notFound, db))
  ∧ deleteItem b (.valid it.itemId) db = (.notFound, db)
  ∧ deleteItem b (.valid idF) db = (.notFound, db) := by
  have hinj : ∀ x ∈ db.items, ∀ y ∈ db.items, x.itemId = y.itemId → x = y :=
    List.inj_on_of_nodup_map hnd
  have hnone : db.items.find? (itemMatch it.itemId b) = none := by
    apply find?_itemMatch_eq_none
    rintro x hx ⟨hid, huid⟩
    have : x = it := hinj x hx it hmem hid
    rw [this] at huid
    exact hne (huid ▸ howner ▸ rfl)
  have hnoneF : db.items.find? (itemMatch idF b) = none := by
    apply find?_itemMatch_eq_none
    rintro x hx ⟨hid, -⟩
    exact hfresh x hx hid
  refine ⟨?_, ?_, ?_, ?_, ?_, ?_, ?_⟩
  · simp [getItem, hnone]
  · intro it2
    simp [getItem, hnone]
  · simp [getItem, hnone, hnoneF]
  · intro now body
    cases herr : updateFieldErrors body with
    | nil => simp [putItem, herr, hnone, hnoneF]
    | cons e es => simp [putItem, herr]
  · intro now body herr
    simp [putItem, herr, hnone]
  · simp [deleteItem, hnone]
  · simp [deleteItem, hnoneF]

/-- The store of the `ownership_isolation` witness: one item owned by
user 1. -/
def dbC1 : Db :=
  ⟨[], [⟨1, "Laptop", 5, 100, none, .Electronics, 1, 0, 0⟩], 1, 2⟩

/-- Closed instance of `ownership_isolation`: user 2 requesting user
1's item gets the same `NotFound` as for the absent id 99. -/
theorem ownership_isolation_witness :
    getItem 2 (.valid 1) dbC1 = .notFound
  ∧ deleteItem 2 (.valid 1) dbC1 = (.notFound, dbC1)
  ∧ getItem 2 (.valid 99) dbC1 = getItem 2 (.valid 1) dbC1 := by
  have h := ownership_isolation dbC1 1 2 99
    ⟨1, "Laptop", 5, 100, none, .Electronics, 1, 0, 0⟩
    (by simp [dbC1]) rfl (by decide) (by decide) (by decide)
  exact ⟨h.1, h.2.2.2.2.2.1, h.2.2.1⟩

/-! ## C6 -/

/-- C6: deleting an id that does not exist or belongs to another user
yields `NotFound` and leaves the store unchanged; deleting an existing
owned item returns exactly the deleted record's prior value; and a
second delete of the same id yields `NotFound`. -/
theorem deleteItem_twice (uid id : Nat) (db : Db) (it : Item)
    (hmem : it ∈ db.items) (hid : it.itemId = id) (hown : it.userId = uid)
    (hnd : uniqueIds db) :
    (∀ db0 : Db, (∀ x ∈ db0.items, ¬(x.itemId = id ∧ x.userId = uid)) →
        deleteItem uid (.valid id) db0 = (.notFound, db0))
  ∧ (deleteItem uid (.valid id) db).1 = .deleted it
  ∧ deleteItem uid (.valid id) ((deleteItem uid (.valid id) db).2)
      = (.notFound, (deleteItem uid (.valid id) db).2) := by
  have hinj : ∀ x ∈ db.items, ∀ y ∈ db.items, x.itemId = y.itemId → x = y :=
    List.inj_on_of_nodup_map hnd
  have hpit : itemMatch id uid it = true := itemMatch_eq_true.mpr ⟨hid, hown⟩
  have huniq : ∀ x ∈ db.items, itemMatch id uid x = true → x = it := by
    intro x hx hpx
    obtain ⟨hxid, -⟩ := itemMatch_eq_true.mp hpx
    exact hinj x hx it hmem (hxid.trans hid.symm)
  have hsome : db.items.find? (itemMatch id uid) = some it :=
    find?_eq_some_of_unique hmem hpit huniq
  have hfirst : deleteItem uid (.valid id) db
      = (.deleted it, { db with items := removeFirst (itemMatch id uid) db.items }) := by
    simp [deleteItem, hsome]
  refine ⟨?_, ?_, ?_⟩
  · intro db0 h0
    simp [deleteItem, find?_itemMatch_eq_none h0]
  · rw [hfirst]
  · rw [hfirst]
    have hnone2 : (removeFirst (itemMatch id uid) db.items).find? (itemMatch id uid)
        = none := by
      apply find?_itemMatch_eq_none
      intro x hx hmatch
      have hxl : x ∈ db.items := mem_removeFirst hx
      have hxit : x = it := huniq x hxl (itemMatch_eq_true.mpr hmatch)
      rw [hxit] at hx
      exact not_mem_removeFirst_of_unique (List.Nodup.of_map _ hnd) hmem hpit huniq hx
    simp [deleteItem, hnone2]

/-- The store of the `deleteItem_twice` witness: one item for each of
two users. -/
def dbC6 : Db :=
  ⟨[], [⟨1, "Ax", 1, 1, none, .Other, 1, 0, 0⟩, ⟨2, "Bx", 1, 1, none, .Other, 2, 0, 0⟩], 1, 3⟩

/-- Closed instance of `deleteItem_twice`: deleting item 1 succeeds
with its prior value, deleting it again yields `NotFound`. -/
theorem deleteItem_twice_witness :
    (deleteItem 1 (.valid 1) dbC6).1 = .deleted ⟨1, "Ax", 1, 1, none, .Other, 1, 0, 0⟩
  ∧ deleteItem 1 (.valid 1) ((deleteItem 1 (.valid 1) dbC6).2)
      = (.notFound, (deleteItem 1 (.valid 1) dbC6).2) := by
  have h := deleteItem_twice 1 1 dbC6 ⟨1, "Ax", 1, 1, none, .Other, 1, 0, 0⟩
    (by simp [dbC6]) rfl rfl (by decide)
  exact ⟨h.2.1, h.2.2⟩

/-! ## C4 -/

/-- C4 as stated is false on the code: an empty item name is shorter
than 2 characters, yet the add handler answers with the missing-fields
400 response (which names the four required fields), not with a
`ValidationError` listing the violated fields. -/
theorem postItem_claim_counterexample :
    ("" : String).length < 2
  ∧ (postItem 0 1 ⟨some "", some 5, some 10, none, some "Electronics"⟩
        ⟨[], [], 1, 1⟩).1 = .missingFields
  ∧ (∀ msgs, (CreateResponse.missingFields : CreateResponse)
      ≠ .validationFailed msgs)
  ∧ (∀ it, (CreateResponse.missingFields : CreateResponse) ≠ .created it) := by
  exact ⟨by decide, by decide, fun msgs h => CreateResponse.noConfusion h,
    fun it h => CreateResponse.noConfusion h⟩

/-- C4 amended: for an add request whose required fields are all
present and non-empty, every violated validator (trimmed name shorter
than 2, negative quantity or price, category outside the enum, and the
description length cap) is listed in a single `ValidationError`
response; when no validator fails, the item is persisted with
`owner = caller` and returned. -/
theorem postItem_validation_spec (now uid : Nat) (db : Db) (n : String)
    (q p : ℚ) (descr : Option String) (c : String)
    (hn : n ≠ "") (hc : c ≠ "") :
    (createValidationErrors n q p descr c ≠ [] →
        postItem now uid ⟨some n, some q, some p, descr, some c⟩ db
          = (.validationFailed (createValidationErrors n q p descr c), db))
  ∧ (jsTrim n ≠ "" → (jsTrim n).length < 2 →
        "Item name must be at least 2 characters" ∈ createValidationErrors n q p descr c)
  ∧ (q < 0 → "Quantity cannot be negative" ∈ createValidationErrors n q p descr c)
  ∧ (p < 0 → "Price cannot be negative" ∈ createValidationErrors n q p descr c)
  ∧ (parseCategory c = none →
        (c ++ " is not a valid enum value for path category")
          ∈ createValidationErrors n q p descr c)
  ∧ (createValidationErrors n q p descr c = [] →
      ∃ it : Item,
        postItem now uid ⟨some n, some q, some p, descr, some c⟩ db
          = (.created it,
             { db with items := db.items ++ [it], nextItemId := db.nextItemId + 1 })
        ∧ it.userId = uid ∧ it.itemName = jsTrim n ∧ it.quantity = q
        ∧ it.price = p ∧ some it.category = parseCategory c) := by
  have hg : ¬(n = "" ∨ c = "") := by tauto
  refine ⟨?_, ?_, ?_, ?_, ?_, ?_⟩
  · intro herr
    cases hpc : parseCategory c with
    | none => simp [postItem, hg, hpc]
    | some cat =>
      cases herr2 : createValidationErrors n q p descr c with
      | nil => exact absurd herr2 herr
      | cons e es => simp [postItem, hg, hpc, herr2]
  · intro h1 h2
    simp [createValidationErrors, nameFieldErrors, h1, h2]
  · intro hq
    simp [createValidationErrors, quantityFieldErrors, hq]
  · intro hp
    simp [createValidationErrors, priceFieldErrors, hp]
  · intro hpc
    simp [createValidationErrors, categoryFieldErrors, hc, hpc]
  · intro herr
    cases hpc : parseCategory c with
    | none =>
      exfalso
      have hcat : categoryFieldErrors c = [] := by
        have := List.append_eq_nil.mp herr
        exact this.2
      rw [categoryFieldErrors, if_neg hc, hpc] at hcat
      exact absurd hcat (by simp)
    | some cat =>
      refine ⟨⟨db.nextItemId, jsTrim n, q, p, descr.map jsTrim, cat, uid, now, now⟩,
        ?_, rfl, rfl, rfl, rfl, ?_⟩
      · simp [postItem, hg, hpc, herr]
      · rfl

/-- Closed instance of `postItem_validation_spec`: a fully valid add
request persists the item for the caller. -/
theorem postItem_validation_spec_witness :
    ∃ it : Item,
      postItem 0 7 ⟨some "TV", some 3, some 10, none, some "Electronics"⟩ ⟨[], [], 1, 1⟩
        = (.created it, ⟨[], [it], 1, 2⟩)
      ∧ it.userId = 7 ∧ it.quantity = 3 := by
  obtain ⟨it, h1, h2, -, h4, -, -⟩ :=
    (postItem_validation_spec 0 7 ⟨[], [], 1, 1⟩ "TV" 3 10 none "Electronics"
      (by decide) (by decide)).2.2.2.2.2 (by decide)
  exact ⟨it, by simpa using h1, h2, h4⟩

/-! ## C5 -/

/-- The store of the C5 theorems: one item owned by user 7. -/
def dbC5 : Db := ⟨[], [⟨1, "Old", 1, 2, none, .Other, 7, 0, 0⟩], 1, 2⟩

/-- C5 as stated is false on the code: the update handler does not
apply the add handler's required-fields validation.  A body without
`itemName` is rejected by add with the missing-fields 400, but the same
body sent to update succeeds (the absent field is stripped from the
update and left unchanged). -/
theorem putItem_claim_counterexample :
    (postItem 5 7 ⟨none, some 5, some 3, none, some "Food"⟩ dbC5).1 = .missingFields
  ∧ (putItem 5 7 (.valid 1) ⟨none, some 5, some 3, none, some "Food"⟩ dbC5).1
      = .updated ⟨1, "Old", 5, 3, none, .Food, 7, 0, 5⟩
  ∧ (∀ msgs, (UpdateResponse.updated ⟨1, "Old", 5, 3, none, .Food, 7, 0, 5⟩)
      ≠ .validationFailed msgs)
  ∧ (UpdateResponse.updated ⟨1, "Old", 5, 3, none, .Food, 7, 0, 5⟩)
      ≠ .notFound := by
  exact ⟨by decide, by decide, fun msgs h => UpdateResponse.noConfusion h,
    fun h => UpdateResponse.noConfusion h⟩

/-- C5 amended: the update operation validates exactly the fields
present in the request body, with the same per-field validators as add
(on a body carrying all fields the two validations agree); fields
absent from the body are left unchanged instead of being required; the
`NotFound` condition coincides with the one of get (same ownership
rule); and a successful update returns the updated record with a
refreshed `updatedAt`. -/
theorem putItem_update_spec (now uid id : Nat) (db : Db) (body : ItemBody) :
    (∀ n q p d c, updateFieldErrors ⟨some n, some q, some p, d, some c⟩
        = createValidationErrors n q p d c)
  ∧ (updateFieldErrors body ≠ [] →
        putItem now uid (.valid id) body db
          = (.validationFailed (updateFieldErrors body), db))
  ∧ (updateFieldErrors body = [] →
        ((putItem now uid (.valid id) body db).1 = .notFound
          ↔ getItem uid (.valid id) db = .notFound))
  ∧ (updateFieldErrors body = [] →
      ∀ it, db.items.find? (itemMatch id uid) = some it →
        putItem now uid (.valid id) body db
          = (.updated (applyUpdate now body it),
             { db with items :=
                replaceFirst (itemMatch id uid) (applyUpdate now body it) db.items })
        ∧ (applyUpdate now body it).updatedAt = now
        ∧ (body.itemName = none → (applyUpdate now body it).itemName = it.itemName)
        ∧ (body.quantity = none → (applyUpdate now body it).quantity = it.quantity)
        ∧ (body.price = none → (applyUpdate now body it).price = it.price)) := by
  refine ⟨fun n q p d c => rfl, ?_, ?_, ?_⟩
  · intro herr
    cases h : updateFieldErrors body with
    | nil => exact absurd h herr
    | cons e es => simp [putItem, h]
  · intro herr
    cases hfind : db.items.find? (itemMatch id uid) with
    | none => simp [putItem, getItem, herr, hfind]
    | some it => simp [putItem, getItem, herr, hfind]
  · intro herr it hfind
    refine ⟨by simp [putItem, herr, hfind], rfl, ?_, ?_, ?_⟩
    · intro h
      simp [applyUpdate, h]
    · intro h
      simp [applyUpdate, h]
    · intro h
      simp [applyUpdate, h]

/-- The request body of the `putItem_update_spec` witness. -/
def bodyC5 : ItemBody := ⟨some "New", some 5, some 3, none, some "Food"⟩

/-- The stored item of the `putItem_update_spec` witness. -/
def oldC5 : Item := ⟨1, "Old", 1, 2, none, .Other, 7, 0, 0⟩

/-- Closed instance of `putItem_update_spec`: a full-body update of the
stored item succeeds and refreshes `updatedAt`. -/
theorem putItem_update_spec_witness :
    putItem 5 7 (.valid 1) bodyC5 dbC5
      = (.updated (applyUpdate 5 bodyC5 oldC5),
         { dbC5 with items := replaceFirst (itemMatch 1 7) (applyUpdate 5 bodyC5 oldC5) dbC5.items })
  ∧ (applyUpdate 5 bodyC5 oldC5).updatedAt = 5 := by
  have h := (putItem_update_spec 5 7 1 dbC5 bodyC5).2.2.2 (by decide) oldC5 (by decide)
  exact ⟨h.1, h.2.1⟩

/-! ## C8 -/

/-- C8: for every valid sign-up input (all fields present and
non-empty, no conflict with a stored user, document validation passing)
the token returned by sign-up verifies — with the server's secret,
before the 7-day expiry — to exactly the `userId` and `username` of the
just-created user, and verification fails once the token is expired or
when checked against a different secret. -/
theorem signup_token_roundtrip (hash : String → String) (secret : String)
    (now : Nat) (db : Db) (u e pw : String)
    (hu : u ≠ "") (he : e ≠ "") (hpw : pw ≠ "")
    (hconf : ∀ x ∈ db.users, x.email ≠ jsToLower (jsTrim e) ∧ x.username ≠ jsTrim u)
    (hval : userValidationErrors (jsTrim u) (jsToLower (jsTrim e)) pw = []) :
    ∃ tok newUser db2,
      signup hash secret now ⟨some u, some e, some pw⟩ db = (.success tok newUser, db2)
      ∧ newUser ∈ db2.users
      ∧ tok = jwtSign secret now ⟨newUser.userId, newUser.username⟩
      ∧ (∀ t, t ≤ now + sevenDays →
          jwtVerify secret t tok = some ⟨newUser.userId, newUser.username⟩)
      ∧ (∀ t, now + sevenDays < t → jwtVerify secret t tok = none)
      ∧ (∀ s2 t, s2 ≠ secret → jwtVerify s2 t tok = none) := by
  have hany : db.users.any
      (fun x => x.email = jsToLower (jsTrim e) ∨ x.username = jsTrim u) = false := by
    rw [List.any_eq_false]
    intro x hx
    simp only [decide_eq_true_eq]
    obtain ⟨h1, h2⟩ := hconf x hx
    tauto
  have hg : ¬(u = "" ∨ e = "" ∨ pw = "") := by tauto
  have hnotany : ¬(db.users.any
      (fun x => x.email = jsToLower (jsTrim e) ∨ x.username = jsTrim u) = true) := by
    rw [hany]
    simp
  refine ⟨jwtSign secret now ⟨db.nextUserId, jsTrim u⟩,
    ⟨db.nextUserId, jsTrim u, jsToLower (jsTrim e), hash pw, now⟩,
    ⟨db.users ++ [⟨db.nextUserId, jsTrim u, jsToLower (jsTrim e), hash pw, now⟩],
      db.items, db.nextUserId + 1, db.nextItemId⟩,
    ?_, ?_, rfl, ?_, ?_, ?_⟩
  · simp only [signup]
    rw [if_neg hg, if_neg hnotany, hval]
  · simp
  · intro t ht
    simp [jwtVerify, jwtSign, ht]
  · intro t ht
    simp [jwtVerify, jwtSign]
    omega
  · intro s2 t hs
    simp [jwtVerify, jwtSign]
    exact fun h => absurd h.symm hs

/-- Closed instance of `signup_token_roundtrip`: signing up `alice`
yields a token that verifies to her identity before expiry. -/
theorem signup_token_roundtrip_witness :
    ∃ tok newUser db2,
      signup (fun s => s) "sec" 0 ⟨some "alice", some "alice@ex.com", some "secret1"⟩
          ⟨[], [], 1, 1⟩
        = (.success tok newUser, db2)
      ∧ newUser ∈ db2.users
      ∧ tok = jwtSign "sec" 0 ⟨newUser.userId, newUser.username⟩
      ∧ jwtVerify "sec" 3 tok = some ⟨newUser.userId, newUser.username⟩ := by
  obtain ⟨tok, nu, db2, h1, h2, h3, h4, -, -⟩ :=
    signup_token_roundtrip (fun s => s) "sec" 0 ⟨[], [], 1, 1⟩
      "alice" "alice@ex.com" "secret1" (by decide) (by decide) (by decide)
      (by intro x hx; exact absurd hx (List.not_mem_nil x)) (by decide)
  exact ⟨tok, nu, db2, h1, h2, h3, h4 3 (by decide)⟩

/-! ## C9 -/

/-- The store of the C9 theorems: one stored user named `bob`. -/
def dbC9 : Db := ⟨[⟨1, "bob", "bob@ex.com", "h7", 0⟩], [], 2, 1⟩

/-- C9 as stated is false on the code: a sign-up request whose username
equals a stored user's but whose password field is empty is answered by
the missing-fields 400 check, which runs before the conflict check, so
the response is not `Conflict` (though still no user is created). -/
theorem signup_claim_counterexample :
    (∃ x ∈ dbC9.users, x.username = "bob")
  ∧ signup (fun s => s) "sec" 0 ⟨some "bob", some "x@y.com", some ""⟩ dbC9
      = (.missingFields, dbC9)
  ∧ (SignupResponse.missingFields ≠ .conflict) := by
  exact ⟨by decide, by decide, fun h => SignupResponse.noConfusion h⟩

/-- C9 amended: a sign-up request with all three fields present and
non-empty, whose email (after the trim/lowercase setters) or username
(after trimming) equals that of an already-stored user, always fails
with `Conflict`, regardless of the other field values, and the store is
unchanged (no new user is created). -/
theorem signup_conflict_spec (hash : String → String) (secret : String)
    (now : Nat) (db : Db) (u e pw : String) (x : User)
    (hu : u ≠ "") (he : e ≠ "") (hpw : pw ≠ "")
    (hx : x ∈ db.users)
    (hmatch : x.email = jsToLower (jsTrim e) ∨ x.username = jsTrim u) :
    signup hash secret now ⟨some u, some e, some pw⟩ db = (.conflict, db) := by
  have hg : ¬(u = "" ∨ e = "" ∨ pw = "") := by tauto
  have hany : db.users.any
      (fun y => y.email = jsToLower (jsTrim e) ∨ y.username = jsTrim u) = true := by
    rw [List.any_eq_true]
    exact ⟨x, hx, by simpa using hmatch⟩
  simp only [signup]
  rw [if_neg hg, if_pos hany]

/-- Closed instance of `signup_conflict_spec`: signing up with the
stored username `bob` yields `Conflict` and leaves the store unchanged. -/
theorem signup_conflict_spec_witness :
    signup (fun s => s) "sec" 0 ⟨some "bob", some "x@y.com", some "pw123x"⟩ dbC9
      = (.conflict, dbC9) := by
  exact signup_conflict_spec (fun s => s) "sec" 0 dbC9 "bob" "x@y.com" "pw123x"
    ⟨1, "bob", "bob@ex.com", "h7", 0⟩ (by decide) (by decide) (by decide)
    (by simp [dbC9]) (Or.inr (by decide))

end Inventory
